import Mathlib

/-!
# hunspell R binding: `utils.h` (class `hunspell_dict`) and `find.h` (class `hunspell_parser`)

A shallow embedding of the two headers.

* A `char` is a `Nat`; a `std::string`, an R string and a token are lists of bytes.
  A `const char *` is read up to its first NUL byte (`c_str`, `strlen`).
* A heap block is a list of cells, `none` being an indeterminate byte. `malloc` and
  `realloc` are assumed not to return a null pointer.
* What C++ leaves undefined, and what it throws, is an `Except.error` carrying a `Fault`.
* The iconv descriptors, the spelling engine (`class Hunspell`) and the tokenizer classes
  (`TextParser` and its subclasses) are library code outside the two headers; they are taken
  as parameters. A conversion descriptor is a function of the input bytes and the free output
  space (shift state is not modelled), a tokenizer is the finite sequence of tokens that the
  successive `next_token` calls yield for the loaded line.
* `size_t` arithmetic is done in `Nat`: `4 * inlen + 1` cannot wrap for a string that fits in
  memory. An `int` is an `Int` between `INT_MIN` and `INT_MAX`; an `int` addition whose result
  leaves that range is undefined and is the fault `signed_overflow`.
-/

namespace Spell

/-- A byte string: the content of a `std::string`, of an R string or of a token. -/
abbrev Bytes := List Nat

/-- Bytes of a string literal of the source. -/
def lit (s : String) : Bytes := s.toList.map Char.toNat

/-- What a `const char *` to the given bytes denotes: the bytes before the first NUL. -/
def c_str (s : Bytes) : Bytes := s.takeWhile (fun b => b != 0)

/-- C `strlen`. -/
def strlen (s : Bytes) : Nat := (c_str s).length

/-- C `strcmp`: the two arguments are compared as NUL-terminated strings. -/
def strcmp : Bytes → Bytes → Int
  | [], [] => 0
  | [], b :: _ => 0 - (b : Int)
  | a :: _, [] => (a : Int)
  | a :: as, b :: bs =>
    if a ≠ b then (a : Int) - (b : Int)
    else if a = 0 then 0
    else strcmp as bs

/-- The member `std::string::compare(const char *)`: zero exactly on equal strings, negative or
positive by lexicographic order otherwise. -/
def string_compare : Bytes → Bytes → Int
  | [], [] => 0
  | [], _ :: _ => -1
  | _ :: _, [] => 1
  | a :: as, b :: bs =>
    if a < b then -1
    else if b < a then 1
    else string_compare as bs

/-- Undefined behaviour and thrown exceptions. -/
inductive Fault
  | runtime_error (what : String)
  | out_of_bounds
  | indeterminate_read
  | null_string
  | signed_overflow
deriving DecidableEq, Repr

/-- The largest value of a 32-bit `int`. -/
def INT_MAX : Int := 2147483647

/-- The least value of a 32-bit `int`. -/
def INT_MIN : Int := -2147483648

/-- Addition of two `int` values. -/
def int_add (a b : Int) : Except Fault Int :=
  if INT_MIN ≤ a + b ∧ a + b ≤ INT_MAX then .ok (a + b) else .error Fault.signed_overflow

/-- A heap block; `none` is a byte that was never written. -/
abbrev Block := List (Option Nat)

/-- The call `malloc(n)`. -/
def malloc (n : Nat) : Block := List.replicate n none

/-- The call `realloc(b, n)`: the content is kept up to the lesser of the old and new sizes. -/
def realloc (b : Block) (n : Nat) : Block := b.take n ++ List.replicate (n - b.length) none

/-- The store `b[i] = v`. -/
def store (b : Block) (i : Nat) (v : Nat) : Except Fault Block :=
  if i < b.length then .ok (b.set i (some v)) else .error Fault.out_of_bounds

/-- Copy `w` into the block from offset zero (the bytes the converter stores through `cur`). -/
def fill (b : Block) (w : Bytes) : Block := w.map some ++ b.drop w.length

/-- Read a NUL-terminated string at the start of a block. -/
def read_c_string : Block → Except Fault Bytes
  | [] => .error Fault.out_of_bounds
  | none :: _ => .error Fault.indeterminate_read
  | some c :: rest =>
    if c = 0 then .ok []
    else match read_c_string rest with
      | .ok s => .ok (c :: s)
      | .error e => .error e

/-- Outcome of one `Riconv` call: whether it returned `(size_t) -1`, and the bytes it stored. -/
structure IconvResult where
  failed : Bool
  written : Bytes
deriving DecidableEq, Repr

/-- A conversion descriptor. `run inbuf outlen` converts `inbuf` with `outlen` bytes of output
space; it never stores more than `outlen` bytes. -/
structure Converter where
  run : Bytes → Nat → IconvResult
  bounded : ∀ inbuf outlen, (run inbuf outlen).written.length ≤ outlen

/-- The library class `Hunspell`, as far as the two headers call it. -/
structure Hunspell where
  spell : Bytes → Bool
  suggest : Bytes → List Bytes
  analyze : Bytes → List Bytes
  stem : Bytes → List Bytes
  get_wordchars : Bytes
  get_wordchars_utf16 : List Nat

/-- The fields of `class hunspell_dict` after construction. -/
structure hunspell_dict where
  pMS_ : Hunspell
  cd_from_ : Converter
  cd_to_ : Converter
  enc_ : Bytes

/-- An R string value: `NA_STRING`, or bytes marked as UTF-8. -/
inductive RString
  | NA
  | utf8 (bytes : Bytes)
deriving DecidableEq, Repr

namespace hunspell_dict

/-- The accessor `hunspell_dict::enc`. -/
def enc (d : hunspell_dict) : Bytes := d.enc_

/-- The accessor `hunspell_dict::wc`. -/
def wc (d : hunspell_dict) : Bytes := d.pMS_.get_wordchars

/-- The method `hunspell_dict::is_utf8`. -/
def is_utf8 (d : hunspell_dict) : Bool :=
  (strcmp (c_str d.enc_) (lit "UTF-8") == 0) || (strcmp (c_str d.enc_) (lit "utf8") == 0) ||
  (strcmp (c_str d.enc_) (lit "UTF8") == 0) || (strcmp (c_str d.enc_) (lit "utf-8") == 0)

/-- The method `hunspell_dict::string_from_r`; `none` is the null pointer. -/
def string_from_r (d : hunspell_dict) (str : Bytes) : Except Fault (Option Block) :=
  let inbuf := c_str str
  let inlen := strlen inbuf
  let outlen := 4 * inlen + 1
  let output := malloc outlen
  let r := d.cd_from_.run inbuf outlen
  let output := fill output r.written
  let cur := r.written.length
  let outlen := outlen - r.written.length
  if r.failed then .ok none
  else match store output cur 0 with
    | .error e => .error e
    | .ok output => .ok (some (realloc output (outlen + 1)))

/-- The method `hunspell_dict::string_to_r`; the argument `none` is the null pointer. -/
def string_to_r (d : hunspell_dict) (inbuf : Option Bytes) : Except Fault RString :=
  match inbuf with
  | none => .ok RString.NA
  | some s =>
    let inbuf := c_str s
    let inlen := strlen inbuf
    let outlen := 4 * inlen + 1
    let output := malloc outlen
    let r := d.cd_to_.run inbuf outlen
    let output := fill output r.written
    let cur := r.written.length
    if r.failed then .ok RString.NA
    else match store output cur 0 with
      | .error e => .error e
      | .ok output =>
        match read_c_string output with
        | .error e => .error e
        | .ok res => .ok (RString.utf8 res)

/-- Construction of a `std::string` from a `char *`. -/
def std_string (p : Option Block) : Except Fault Bytes :=
  match p with
  | none => .error Fault.null_string
  | some b => read_c_string b

/-- The overload `hunspell_dict::spell(std::string)`. -/
def spell_std (d : hunspell_dict) (str : Bytes) : Bool := d.pMS_.spell str

/-- The overload `hunspell_dict::spell(Rcpp::String)`. -/
def spell (d : hunspell_dict) (word : Bytes) : Except Fault Bool :=
  match d.string_from_r word with
  | .error e => .error e
  | .ok none => .ok false
  | .ok (some b) =>
    match std_string (some b) with
    | .error e => .error e
    | .ok s => .ok (d.pMS_.spell s)

/-- The loop `for (x : ...) out.push_back(string_to_r(x.c_str()))` of suggest, analyze, stem. -/
def push_all (d : hunspell_dict) : List Bytes → List RString → Except Fault (List RString)
  | [], out => .ok out
  | x :: xs, out =>
    match d.string_to_r (some x) with
    | .error e => .error e
    | .ok w => push_all d xs (out ++ [w])

/-- The method `hunspell_dict::suggest`. -/
def suggest (d : hunspell_dict) (word : Bytes) : Except Fault (List RString) :=
  match d.string_from_r word with
  | .error e => .error e
  | .ok str =>
    match std_string str with
    | .error e => .error e
    | .ok s => push_all d (d.pMS_.suggest s) []

/-- The method `hunspell_dict::analyze`. -/
def analyze (d : hunspell_dict) (word : Bytes) : Except Fault (List RString) :=
  match d.string_from_r word with
  | .error e => .error e
  | .ok str =>
    match std_string str with
    | .error e => .error e
    | .ok s => push_all d (d.pMS_.analyze s) []

/-- The method `hunspell_dict::stem`. -/
def stem (d : hunspell_dict) (word : Bytes) : Except Fault (List RString) :=
  match d.string_from_r word with
  | .error e => .error e
  | .ok str =>
    match std_string str with
    | .error e => .error e
    | .ok s => push_all d (d.pMS_.stem s) []

end hunspell_dict

/-- The tokenizer classes of `parsers/`. -/
inductive ParserKind
  | TextParser
  | LaTeXParser
  | ManParser
  | XMLParser
  | HTMLParser
deriving DecidableEq, Repr

/-- The word characters a tokenizer is constructed with: the constructor taking
`(const w_char *, int)`, where `none` is the null pointer, or the one taking `const char *`. -/
inductive WordChars
  | utf16 (wc : Option (List Nat)) (len : Int)
  | bytes (wordchars : Bytes)
deriving DecidableEq, Repr

/-- A tokenizer object as constructed by `new`. -/
structure TextParser where
  kind : ParserKind
  wordchars : WordChars
deriving DecidableEq, Repr

/-- Behaviour of the tokenizer library: for a tokenizer object, the URL checking flag and the
line loaded by `put_line`, the tokens that `next_token` yields before it returns false. -/
abbrev Tokenizer := TextParser → Nat → Bytes → List Bytes

/-- Calls that leave `HunspellParser`: to the tokenizer, to the engine, to the R runtime. -/
inductive Event
  | warning (fmt : String) (line : Int) (enc : Bytes)
  | put_line (str : Bytes)
  | set_url_checking (flag : Nat)
  | next_token (token : Option Bytes)
  | spell (word : Bytes) (res : Bool)
deriving DecidableEq, Repr

/-- The fields of `class hunspell_parser` of `find.h`. -/
structure HunspellParser where
  parser : TextParser
  mydict : hunspell_dict
  utf16_wc : Option (List Nat)
  utf16_len : Int

namespace HunspellParser

/-- The constructor `HunspellParser::HunspellParser`. -/
def new (mydict : hunspell_dict) (format : Bytes) : Except Fault HunspellParser :=
  let utf16_len : Int := 0
  let utf16_wc : Option (List Nat) := none
  if mydict.is_utf8 then
    if string_compare format (lit "text") = 0 then
      .ok ⟨⟨ParserKind.TextParser, WordChars.utf16 utf16_wc utf16_len⟩, mydict, utf16_wc, utf16_len⟩
    else if string_compare format (lit "latex") = 0 then
      .ok ⟨⟨ParserKind.LaTeXParser, WordChars.utf16 utf16_wc utf16_len⟩, mydict, utf16_wc, utf16_len⟩
    else if string_compare format (lit "man") = 0 then
      .ok ⟨⟨ParserKind.ManParser, WordChars.utf16 utf16_wc utf16_len⟩, mydict, utf16_wc, utf16_len⟩
    else if string_compare format (lit "xml") = 0 then
      .ok ⟨⟨ParserKind.XMLParser, WordChars.utf16 utf16_wc utf16_len⟩, mydict, utf16_wc, utf16_len⟩
    else if string_compare format (lit "html") = 0 then
      .ok ⟨⟨ParserKind.HTMLParser, WordChars.utf16 utf16_wc utf16_len⟩, mydict, utf16_wc, utf16_len⟩
    else
      .error (Fault.runtime_error "Unknown parse format")
  else
    if string_compare format (lit "text") = 0 then
      .ok ⟨⟨ParserKind.TextParser, WordChars.bytes (c_str mydict.wc)⟩, mydict, utf16_wc, utf16_len⟩
    else if string_compare format (lit "latex") = 0 then
      .ok ⟨⟨ParserKind.LaTeXParser, WordChars.bytes (c_str mydict.wc)⟩, mydict, utf16_wc, utf16_len⟩
    else if string_compare format (lit "man") = 0 then
      .ok ⟨⟨ParserKind.ManParser, WordChars.bytes (c_str mydict.wc)⟩, mydict, utf16_wc, utf16_len⟩
    else
      .error (Fault.runtime_error "Unknown parse format")

/-- The loop `while (parser->next_token(token))` of `parse_text`. -/
def parse_loop : List Bytes → List RString → List Event → List RString × List Event
  | [], words, log => (words, log ++ [Event.next_token none])
  | token :: rest, words, log =>
    parse_loop rest (words ++ [RString.utf8 (c_str token)]) (log ++ [Event.next_token (some token)])

/-- The method `HunspellParser::parse_text`. -/
def parse_text (tk : Tokenizer) (p : HunspellParser) (txt : Bytes) : List RString × List Event :=
  let str := c_str txt
  parse_loop (tk p.parser 1 str) [] [Event.put_line str, Event.set_url_checking 1]

/-- The loop `while (parser->next_token(token))` of `find`. -/
def find_loop (d : hunspell_dict) :
    List Bytes → List RString → List Event → Except Fault (List RString × List Event)
  | [], words, log => .ok (words, log ++ [Event.next_token none])
  | token :: rest, words, log =>
    let res := d.spell_std token
    let log := log ++ [Event.next_token (some token), Event.spell token res]
    if !res then
      match d.string_to_r (some token) with
      | .error e => .error e
      | .ok w => find_loop d rest (words ++ [w]) log
    else find_loop d rest words log

/-- The format string of the warning raised by `find`. -/
def warning_fmt : String :=
  "Failed to convert line %d to %s encoding. Try spelling with a UTF8 dictionary."

/-- The method `HunspellParser::find`. -/
def find (tk : Tokenizer) (p : HunspellParser) (txt : Bytes) (i : Int) :
    Except Fault (List RString × List Event) :=
  match p.mydict.string_from_r txt with
  | .error e => .error e
  | .ok none =>
    match int_add i 1 with
    | .error e => .error e
    | .ok line => .ok ([], [Event.warning warning_fmt line (c_str p.mydict.enc)])
  | .ok (some str) =>
    match read_c_string str with
    | .error e => .error e
    | .ok line =>
      find_loop p.mydict (tk p.parser 1 line) [] [Event.put_line line, Event.set_url_checking 1]

end HunspellParser

/-! ## Concrete dictionaries, converters and tokenizers used at the evaluation points -/

/-- A converter between two single-byte supersets of ASCII that can only represent ASCII: it
copies bytes below 128 and stops with an error at the first other byte or when the output
space is exhausted. -/
def ascii_run : Bytes → Nat → IconvResult
  | [], _ => ⟨false, []⟩
  | _ :: _, 0 => ⟨true, []⟩
  | b :: bs, n + 1 =>
    if b < 128 then ⟨(ascii_run bs n).failed, b :: (ascii_run bs n).written⟩
    else ⟨true, []⟩

/-- A converter that writes every input byte three times (an encoding that expands). -/
def triple_run : Bytes → Nat → IconvResult
  | [], _ => ⟨false, []⟩
  | b :: bs, n =>
    if 3 ≤ n then ⟨(triple_run bs (n - 3)).failed, b :: b :: b :: (triple_run bs (n - 3)).written⟩
    else ⟨true, []⟩

/-- A converter that fills the whole output space with the byte 120 and reports success. -/
def flood_run (_ : Bytes) (n : Nat) : IconvResult := ⟨false, List.replicate n 120⟩

/-- The identity converter (UTF-8 to UTF-8). -/
def copy_run : Bytes → Nat → IconvResult
  | [], _ => ⟨false, []⟩
  | _ :: _, 0 => ⟨true, []⟩
  | b :: bs, n + 1 => ⟨(copy_run bs n).failed, b :: (copy_run bs n).written⟩

/-- A tokenizer that yields the maximal runs of bytes other than the space. -/
def split_spaces : Bytes → Bytes → List Bytes
  | [], [] => []
  | [], acc => [acc]
  | b :: bs, acc =>
    if b = 32 then (if acc = [] then split_spaces bs [] else acc :: split_spaces bs [])
    else split_spaces bs (acc ++ [b])

/-- The tokenizer behaviour used at the evaluation points. -/
def space_tokenizer : Tokenizer := fun _ _ line => split_spaces line []

/-- An engine that accepts exactly the word `ok`. -/
def toy_engine : Hunspell where
  spell := fun w => w == lit "ok"
  suggest := fun _ => []
  analyze := fun _ => []
  stem := fun _ => []
  get_wordchars := lit "-"
  get_wordchars_utf16 := [45]

/-- A converter that can only represent ASCII. -/
def ascii_conv : Converter where
  run := ascii_run
  bounded := by
    intro inbuf
    induction inbuf with
    | nil => intro outlen; simp [ascii_run]
    | cons b bs ih =>
      intro outlen
      cases outlen with
      | zero => simp [ascii_run]
      | succ n =>
        by_cases hb : b < 128
        · have := ih n
          simp [ascii_run, hb]
          exact this
        · simp [ascii_run, hb]

/-- A converter into an encoding that expands every byte to three. -/
def triple_conv : Converter where
  run := triple_run
  bounded := by
    intro inbuf
    induction inbuf with
    | nil => intro outlen; simp [triple_run]
    | cons b bs ih =>
      intro outlen
      by_cases hn : 3 ≤ outlen
      · have := ih (outlen - 3)
        simp [triple_run, hn]
        omega
      · simp [triple_run, hn]

/-- A converter that uses up the whole output space. -/
def flood_conv : Converter where
  run := flood_run
  bounded := by
    intro inbuf outlen
    simp [flood_run]

/-- The identity converter. -/
def copy_conv : Converter where
  run := copy_run
  bounded := by
    intro inbuf
    induction inbuf with
    | nil => intro outlen; simp [copy_run]
    | cons b bs ih =>
      intro outlen
      cases outlen with
      | zero => simp [copy_run]
      | succ n =>
        have := ih n
        simp [copy_run]
        exact this

/-- A dictionary in an 8-bit encoding, into which only ASCII converts. -/
def latin_dict : hunspell_dict := ⟨toy_engine, ascii_conv, ascii_conv, lit "ISO8859-1"⟩

/-- A UTF-8 dictionary. -/
def utf8_dict : hunspell_dict := ⟨toy_engine, copy_conv, copy_conv, lit "UTF-8"⟩

/-- A dictionary whose encoding name is a differently cased UTF-8 alias. -/
def cased_dict : hunspell_dict := ⟨toy_engine, copy_conv, copy_conv, lit "Utf-8"⟩

/-- A dictionary whose encoding takes three bytes for every input byte. -/
def wide_dict : hunspell_dict := ⟨toy_engine, triple_conv, copy_conv, lit "UTF-7"⟩

/-- A dictionary whose inbound converter uses up the whole output space. -/
def flood_dict : hunspell_dict := ⟨toy_engine, flood_conv, copy_conv, lit "X"⟩

/-- A dictionary that takes every line inbound but can only return ASCII tokens. -/
def mixed_dict : hunspell_dict := ⟨toy_engine, copy_conv, ascii_conv, lit "ISO8859-1"⟩

/-- ASCII lower-casing of one byte. -/
def to_lower (b : Nat) : Nat := if 65 ≤ b ∧ b ≤ 90 then b + 32 else b

/-- Equality of two names up to the case of ASCII letters: the comparison the specification
words for the UTF-8 test. It is not taken from the source. -/
def eq_ignore_case (a b : Bytes) : Bool := a.map to_lower == b.map to_lower

/-- A parser object over the 8-bit dictionary `latin_dict`, as the constructor builds it for
the format `text`. -/
def parser_latin : HunspellParser :=
  ⟨⟨ParserKind.TextParser, WordChars.bytes (lit "-")⟩, latin_dict, none, 0⟩

/-- A parser object over `utf8_dict`, as the constructor builds it for the format `text`. -/
def parser_utf8 : HunspellParser :=
  ⟨⟨ParserKind.TextParser, WordChars.utf16 none 0⟩, utf8_dict, none, 0⟩

/-- A parser object over `wide_dict`, as the constructor builds it for the format `text`. -/
def parser_wide : HunspellParser :=
  ⟨⟨ParserKind.TextParser, WordChars.bytes (lit "-")⟩, wide_dict, none, 0⟩

/-- A parser object over `mixed_dict`, as the constructor builds it for the format `text`. -/
def parser_mixed : HunspellParser :=
  ⟨⟨ParserKind.TextParser, WordChars.bytes (lit "-")⟩, mixed_dict, none, 0⟩

/-- Apply a fallible conversion to every element in order; the first fault is the result. -/
def each_through {α β : Type} (f : α → Except Fault β) : List α → Except Fault (List β)
  | [] => .ok []
  | a :: as =>
    match f a with
    | .error e => .error e
    | .ok b =>
      match each_through f as with
      | .error e => .error e
      | .ok bs => .ok (b :: bs)

/-- The tokens of a list that the engine rejects, in order and with repetitions. -/
def misspelled (d : hunspell_dict) (tokens : List Bytes) : List Bytes :=
  tokens.filter (fun t => !d.pMS_.spell t)

/-! ## Lemmas on the string primitives -/

theorem c_str_idem (s : Bytes) : c_str (c_str s) = c_str s := by
  induction s with
  | nil => rfl
  | cons a as ih =>
    by_cases h : a = 0
    · simp [c_str, h]
    · have ih2 : List.takeWhile (fun b => b != 0) (List.takeWhile (fun b => b != 0) as)
          = List.takeWhile (fun b => b != 0) as := ih
      simp [c_str, List.takeWhile_cons, h, ih2]

theorem strcmp_eq_zero_iff (a b : Bytes) : strcmp a b = 0 ↔ c_str a = c_str b := by
  induction a generalizing b with
  | nil =>
    cases b with
    | nil => simp [strcmp, c_str]
    | cons y ys =>
      by_cases hy : y = 0
      · simp [strcmp, c_str, hy]
      · simp [strcmp, c_str, List.takeWhile_cons, hy]
  | cons x xs ih =>
    cases b with
    | nil =>
      by_cases hx : x = 0
      · simp [strcmp, c_str, hx]
      · simp [strcmp, c_str, List.takeWhile_cons, hx]
    | cons y ys =>
      by_cases hxy : x = y
      · subst hxy
        by_cases hx : x = 0
        · simp [strcmp, c_str, hx]
        · have := ih ys
          simp only [c_str] at this
          simp [strcmp, c_str, List.takeWhile_cons, hx, this]
      · have hne : (x : Int) - (y : Int) ≠ 0 := by omega
        by_cases hx : x = 0
        · have hy : y ≠ 0 := fun h => hxy (hx.trans h.symm)
          simp [strcmp, c_str, List.takeWhile_cons, hx, hy, hxy]
          omega
        · by_cases hy : y = 0
          · simp [strcmp, c_str, List.takeWhile_cons, hx, hy, hxy]
          · simp [strcmp, c_str, List.takeWhile_cons, hx, hy, hxy, hne]

theorem string_compare_eq_zero_iff (a b : Bytes) : string_compare a b = 0 ↔ a = b := by
  induction a generalizing b with
  | nil => cases b <;> simp [string_compare]
  | cons x xs ih =>
    cases b with
    | nil => simp [string_compare]
    | cons y ys =>
      by_cases h1 : x < y
      · have : x ≠ y := by omega
        simp [string_compare, h1, this]
      · by_cases h2 : y < x
        · have : x ≠ y := by omega
          simp [string_compare, h1, h2, this]
        · have : x = y := by omega
          simp [string_compare, h1, h2, this, ih]

theorem c_str_of_nonzero (s : Bytes) (h : ∀ b ∈ s, b ≠ 0) : c_str s = s := by
  induction s with
  | nil => rfl
  | cons a as ih =>
    have ha : a ≠ 0 := h a (by simp)
    have ih2 : List.takeWhile (fun b => b != 0) as = as := ih (fun b hb => h b (by simp [hb]))
    simp [c_str, List.takeWhile_cons, ha, ih2]

theorem strlen_c_str (s : Bytes) : strlen (c_str s) = strlen s := by
  simp [strlen, c_str_idem]

theorem string_from_r_of_failed (d : hunspell_dict) (txt : Bytes)
    (h : (d.cd_from_.run (c_str txt) (4 * strlen txt + 1)).failed = true) :
    d.string_from_r txt = .ok none := by
  simp [hunspell_dict.string_from_r, strlen_c_str, h]

theorem string_to_r_of_failed (d : hunspell_dict) (t : Bytes)
    (h : (d.cd_to_.run (c_str t) (4 * strlen t + 1)).failed = true) :
    d.string_to_r (some t) = .ok RString.NA := by
  simp [hunspell_dict.string_to_r, strlen_c_str, h]

theorem each_through_ok {α β : Type} (f : α → Except Fault β) (l : List α) (ws : List β)
    (h : each_through f l = .ok ws) :
    ws.length = l.length ∧
      ∀ (k : Nat) (t : α), l[k]? = some t → ∃ w, f t = .ok w ∧ ws[k]? = some w := by
  induction l generalizing ws with
  | nil =>
    simp only [each_through] at h
    injection h with h
    subst h
    simp
  | cons a as ih =>
    simp only [each_through] at h
    cases hf : f a with
    | error e => rw [hf] at h; cases h
    | ok b =>
      rw [hf] at h
      cases hr : each_through f as with
      | error e => rw [hr] at h; cases h
      | ok bs =>
        rw [hr] at h
        injection h with h
        subst h
        obtain ⟨hl, hk⟩ := ih bs hr
        refine ⟨by simp [hl], ?_⟩
        intro k t hkt
        cases k with
        | zero =>
          simp only [List.getElem?_cons_zero, Option.some.injEq] at hkt
          subst hkt
          exact ⟨b, hf, by simp⟩
        | succ n =>
          simp only [List.getElem?_cons_succ] at hkt
          obtain ⟨w, hw1, hw2⟩ := hk n t hkt
          exact ⟨w, hw1, by simpa using hw2⟩

theorem find_loop_words (d : hunspell_dict) (toks : List Bytes) (words : List RString)
    (log : List Event) :
    (HunspellParser.find_loop d toks words log).map Prod.fst
      = (each_through (fun t => d.string_to_r (some t)) (misspelled d toks)).map
          (fun ws => words ++ ws) := by
  induction toks generalizing words log with
  | nil => simp [HunspellParser.find_loop, misspelled, each_through, Except.map]
  | cons t rest ih =>
    cases hs : d.pMS_.spell t
    · cases hr : d.string_to_r (some t) with
      | error e =>
        simp [HunspellParser.find_loop, misspelled, each_through, Except.map,
          hunspell_dict.spell_std, hs, hr]
      | ok w =>
        have := ih (words ++ [w]) (log ++ [Event.next_token (some t), Event.spell t false])
        simp only [misspelled] at this
        simp only [HunspellParser.find_loop, misspelled, hunspell_dict.spell_std, hs, hr,
          List.filter_cons, Bool.not_false, if_true, each_through, this]
        cases each_through (fun t => d.string_to_r (some t))
          (List.filter (fun t => !d.pMS_.spell t) rest) <;> simp [Except.map]
    · have := ih words (log ++ [Event.next_token (some t), Event.spell t true])
      simp only [misspelled] at this
      simp [HunspellParser.find_loop, misspelled, hunspell_dict.spell_std, hs, this]

theorem parse_loop_eq (toks : List Bytes) (words : List RString) (log : List Event) :
    HunspellParser.parse_loop toks words log
      = (words ++ toks.map (fun t => RString.utf8 (c_str t)),
         log ++ toks.map (fun t => Event.next_token (some t)) ++ [Event.next_token none]) := by
  induction toks generalizing words log with
  | nil => simp [HunspellParser.parse_loop]
  | cons t rest ih => simp [HunspellParser.parse_loop, ih]

theorem read_c_string_terminated (w : Bytes) (rest : Block) (hw : ∀ b ∈ w, b ≠ 0) :
    read_c_string (w.map some ++ some 0 :: rest) = .ok w := by
  induction w with
  | nil => simp [read_c_string]
  | cons a as ih =>
    have ha : a ≠ 0 := hw a (by simp)
    have ih2 := ih (fun b hb => hw b (by simp [hb]))
    simp [read_c_string, ha, ih2]

theorem store_terminator (w : Bytes) (size : Nat) (h : w.length < size) :
    store (fill (malloc size) w) w.length 0
      = .ok (w.map some ++ some 0 :: List.replicate (size - w.length - 1) none) := by
  have hlen : (fill (malloc size) w).length = size := by
    simp [fill, malloc]
    omega
  have hrep : List.replicate (size - w.length) (none : Option Nat)
      = none :: List.replicate (size - w.length - 1) none := by
    have : size - w.length = (size - w.length - 1) + 1 := by omega
    rw [this, List.replicate_succ]
    simp
  simp only [store, hlen, h, if_true]
  simp [fill, malloc, List.drop_replicate, hrep, List.set_append]

theorem store_outside (w : Bytes) (size : Nat) (h : w.length = size) :
    store (fill (malloc size) w) w.length 0 = .error Fault.out_of_bounds := by
  have hlen : (fill (malloc size) w).length = size := by
    simp [fill, malloc]
    omega
  simp [store, hlen, h]

theorem string_from_r_block (d : hunspell_dict) (txt : Bytes)
    (hok : (d.cd_from_.run (c_str txt) (4 * strlen txt + 1)).failed = false)
    (hu : (d.cd_from_.run (c_str txt) (4 * strlen txt + 1)).written.length < 4 * strlen txt + 1) :
    d.string_from_r txt
      = .ok (some (realloc
          ((d.cd_from_.run (c_str txt) (4 * strlen txt + 1)).written.map some ++ some 0 ::
            List.replicate (4 * strlen txt + 1
              - (d.cd_from_.run (c_str txt) (4 * strlen txt + 1)).written.length - 1) none)
          (4 * strlen txt + 1
              - (d.cd_from_.run (c_str txt) (4 * strlen txt + 1)).written.length + 1))) := by
  simp only [hunspell_dict.string_from_r, strlen_c_str, hok, Bool.false_eq_true, if_false]
  rw [store_terminator _ _ hu]

theorem string_from_r_overflow (d : hunspell_dict) (txt : Bytes)
    (hok : (d.cd_from_.run (c_str txt) (4 * strlen txt + 1)).failed = false)
    (hu : (d.cd_from_.run (c_str txt) (4 * strlen txt + 1)).written.length = 4 * strlen txt + 1) :
    d.string_from_r txt = .error Fault.out_of_bounds := by
  simp only [hunspell_dict.string_from_r, strlen_c_str, hok, Bool.false_eq_true, if_false]
  rw [store_outside _ _ hu]

theorem string_from_r_complete (d : hunspell_dict) (txt : Bytes)
    (hok : (d.cd_from_.run (c_str txt) (4 * strlen txt + 1)).failed = false)
    (hu : (d.cd_from_.run (c_str txt) (4 * strlen txt + 1)).written.length ≤ 2 * strlen txt)
    (hnz : ∀ b ∈ (d.cd_from_.run (c_str txt) (4 * strlen txt + 1)).written, b ≠ 0) :
    ∃ str, d.string_from_r txt = .ok (some str) ∧
      read_c_string str = .ok (d.cd_from_.run (c_str txt) (4 * strlen txt + 1)).written := by
  refine ⟨_, string_from_r_block d txt hok (by omega), ?_⟩
  generalize (d.cd_from_.run (c_str txt) (4 * strlen txt + 1)).written = w at hu hnz ⊢
  generalize strlen txt = n at hu ⊢
  have h1 : 4 * n + 1 - w.length + 1 = (w.map some).length + (4 * n + 1 - w.length + 1 - w.length) := by
    simp
    omega
  have h2 : 4 * n + 1 - w.length + 1 - w.length = (4 * n + 1 - w.length - w.length) + 1 := by
    omega
  unfold realloc
  rw [h1, List.take_append, h2, List.take_succ_cons, List.append_assoc, List.cons_append]
  exact read_c_string_terminated w _ hnz

theorem string_from_r_cut (d : hunspell_dict) (txt : Bytes)
    (hok : (d.cd_from_.run (c_str txt) (4 * strlen txt + 1)).failed = false)
    (hu : (d.cd_from_.run (c_str txt) (4 * strlen txt + 1)).written.length < 4 * strlen txt + 1)
    (h2 : 2 * strlen txt < (d.cd_from_.run (c_str txt) (4 * strlen txt + 1)).written.length) :
    d.string_from_r txt
      = .ok (some (((d.cd_from_.run (c_str txt) (4 * strlen txt + 1)).written.take
          (4 * strlen txt + 1
            - (d.cd_from_.run (c_str txt) (4 * strlen txt + 1)).written.length + 1)).map some)) := by
  rw [string_from_r_block d txt hok hu]
  generalize (d.cd_from_.run (c_str txt) (4 * strlen txt + 1)).written = w at hu h2 ⊢
  generalize strlen txt = n at hu h2 ⊢
  have h3 : 4 * n + 1 - w.length + 1 ≤ (w.map some).length := by
    simp
    omega
  have h4 : 4 * n + 1 - w.length + 1
      - (List.map some w ++ some 0 :: List.replicate (4 * n + 1 - w.length - 1) none).length = 0 := by
    simp
    omega
  unfold realloc
  rw [List.take_append_of_le_length h3, h4]
  simp [List.map_take]

theorem string_to_r_complete (d : hunspell_dict) (t : Bytes)
    (hok : (d.cd_to_.run (c_str t) (4 * strlen t + 1)).failed = false)
    (hu : (d.cd_to_.run (c_str t) (4 * strlen t + 1)).written.length < 4 * strlen t + 1)
    (hnz : ∀ b ∈ (d.cd_to_.run (c_str t) (4 * strlen t + 1)).written, b ≠ 0) :
    d.string_to_r (some t)
      = .ok (RString.utf8 (d.cd_to_.run (c_str t) (4 * strlen t + 1)).written) := by
  simp only [hunspell_dict.string_to_r, strlen_c_str, hok, Bool.false_eq_true, if_false]
  rw [store_terminator _ _ hu]
  simp only []
  rw [read_c_string_terminated _ _ hnz]

theorem lit_text : lit "text" = [116, 101, 120, 116] := by decide

theorem lit_latex : lit "latex" = [108, 97, 116, 101, 120] := by decide

theorem lit_man : lit "man" = [109, 97, 110] := by decide

theorem lit_xml : lit "xml" = [120, 109, 108] := by decide

theorem lit_html : lit "html" = [104, 116, 109, 108] := by decide

theorem c_str_alias :
    c_str (lit "UTF-8") = lit "UTF-8" ∧ c_str (lit "utf8") = lit "utf8" ∧
    c_str (lit "UTF8") = lit "UTF8" ∧ c_str (lit "utf-8") = lit "utf-8" := by decide

/-! ## The claims -/

/-- C5 (as the code has it): `is_utf8` is true exactly when the encoding name, read as a C
string, is byte for byte one of the four literals `UTF-8`, `utf8`, `UTF8`, `utf-8`; the
comparison is `strcmp`, which is case-sensitive. -/
theorem C5_is_utf8_exact (d : hunspell_dict) :
    d.is_utf8 = true ↔
      (c_str d.enc_ = lit "UTF-8" ∨ c_str d.enc_ = lit "utf8" ∨
       c_str d.enc_ = lit "UTF8" ∨ c_str d.enc_ = lit "utf-8") := by
  obtain ⟨h1, h2, h3, h4⟩ := c_str_alias
  simp only [hunspell_dict.is_utf8, Bool.or_eq_true, beq_iff_eq, strcmp_eq_zero_iff, c_str_idem,
    h1, h2, h3, h4]
  tauto

/-- C5 (as stated) fails: the name `Utf-8` equals the alias `UTF-8` when case is ignored, it
holds no NUL byte, and `is_utf8` is false for it. -/
theorem C5_counterexample :
    eq_ignore_case cased_dict.enc_ (lit "UTF-8") = true ∧ c_str cased_dict.enc_ = cased_dict.enc_ ∧
    cased_dict.is_utf8 = false := by decide

/-- C4: construction succeeds exactly for the formats `text`, `latex`, `man`, and for `xml`
and `html` under a UTF-8 dictionary; in every other case it throws the runtime error
`Unknown parse format`; on success the tokenizer created is the one the format names. -/
theorem C4_constructor (d : hunspell_dict) (format : Bytes) :
    ((∃ p, HunspellParser.new d format = .ok p) ↔
      (format = lit "text" ∨ format = lit "latex" ∨ format = lit "man" ∨
        (d.is_utf8 = true ∧ (format = lit "xml" ∨ format = lit "html")))) ∧
    ((∀ p, HunspellParser.new d format ≠ .ok p) →
      HunspellParser.new d format = .error (Fault.runtime_error "Unknown parse format")) ∧
    (∀ p, HunspellParser.new d format = .ok p →
      (format = lit "text" ∧ p.parser.kind = ParserKind.TextParser) ∨
      (format = lit "latex" ∧ p.parser.kind = ParserKind.LaTeXParser) ∨
      (format = lit "man" ∧ p.parser.kind = ParserKind.ManParser) ∨
      (format = lit "xml" ∧ p.parser.kind = ParserKind.XMLParser) ∨
      (format = lit "html" ∧ p.parser.kind = ParserKind.HTMLParser)) := by
  simp only [HunspellParser.new, string_compare_eq_zero_iff]
  cases hu : d.is_utf8 <;> by_cases h1 : format = lit "text" <;>
    by_cases h2 : format = lit "latex" <;> by_cases h3 : format = lit "man" <;>
    by_cases h4 : format = lit "xml" <;> by_cases h5 : format = lit "html" <;>
    simp_all [lit_text, lit_latex, lit_man, lit_xml, lit_html]

/-- C4 at concrete inputs: `xml` is accepted under a UTF-8 dictionary and creates the XML
tokenizer, and is refused under an 8-bit dictionary. -/
theorem C4_constructor_witness :
    (∃ p, HunspellParser.new utf8_dict (lit "xml") = .ok p ∧
      p.parser.kind = ParserKind.XMLParser) ∧
    HunspellParser.new latin_dict (lit "xml")
      = .error (Fault.runtime_error "Unknown parse format") := by
  refine ⟨?_, ?_⟩
  · have hacc : ∃ p, HunspellParser.new utf8_dict (lit "xml") = .ok p :=
      (C4_constructor utf8_dict (lit "xml")).1.2
        (Or.inr (Or.inr (Or.inr ⟨by decide, Or.inl rfl⟩)))
    obtain ⟨p, hp⟩ := hacc
    refine ⟨p, hp, ?_⟩
    rcases (C4_constructor utf8_dict (lit "xml")).2.2 p hp with h | h | h | h | h
    · exact absurd h.1 (by decide)
    · exact absurd h.1 (by decide)
    · exact absurd h.1 (by decide)
    · exact h.2
    · exact absurd h.1 (by decide)
  · apply (C4_constructor latin_dict (lit "xml")).2.1
    intro p hp
    have hacc := (C4_constructor latin_dict (lit "xml")).1.1 ⟨p, hp⟩
    revert hacc
    decide

/-- C8: for every accepted format the tokenizer is constructed with the null wide-character
array of length 0 when the dictionary is UTF-8, whatever word characters the dictionary has,
and with the C string `wc().c_str()` of the dictionary when it is not UTF-8, which is `wc()`
itself when that holds no NUL byte. -/
theorem C8_word_alphabet (d : hunspell_dict) (format : Bytes) (p : HunspellParser)
    (h : HunspellParser.new d format = .ok p) :
    (d.is_utf8 = true → p.parser.wordchars = WordChars.utf16 none 0) ∧
    (d.is_utf8 = false → p.parser.wordchars = WordChars.bytes (c_str d.wc)) ∧
    (d.is_utf8 = false → (∀ b ∈ d.wc, b ≠ 0) → p.parser.wordchars = WordChars.bytes d.wc) := by
  have hc : (∀ b ∈ d.wc, b ≠ 0) → c_str d.wc = d.wc := c_str_of_nonzero d.wc
  unfold HunspellParser.new at h
  cases hu : d.is_utf8 <;> rw [hu] at h <;> simp only [Bool.false_eq_true, if_false, if_true] at h <;>
    split_ifs at h <;> (injection h with h; subst h; simp; try exact hc)

/-- C8 at concrete inputs: the UTF-8 dictionary declares word characters and the tokenizer gets
none; the 8-bit dictionary hands over its word character string. -/
theorem C8_word_alphabet_witness :
    utf8_dict.pMS_.get_wordchars_utf16 = [45] ∧
    (∀ p, HunspellParser.new utf8_dict (lit "latex") = .ok p →
      p.parser.wordchars = WordChars.utf16 none 0) ∧
    (∀ p, HunspellParser.new latin_dict (lit "man") = .ok p →
      p.parser.wordchars = WordChars.bytes (lit "-")) ∧
    (∃ p, HunspellParser.new latin_dict (lit "man") = .ok p) := by
  refine ⟨rfl, ?_, ?_, ?_⟩
  · intro p hp
    exact (C8_word_alphabet utf8_dict (lit "latex") p hp).1 (by decide)
  · intro p hp
    exact (C8_word_alphabet latin_dict (lit "man") p hp).2.1 (by decide)
  · exact ⟨⟨⟨ParserKind.ManParser, WordChars.bytes (c_str latin_dict.wc)⟩, latin_dict, none, 0⟩, rfl⟩

/-- C6 at a word the dictionary encoding cannot hold (the two UTF-8 bytes of U+0151 under an
8-bit dictionary): the conversion returns the null pointer, `spell` answers false, and
`suggest`, `stem` and `analyze` construct a `std::string` from that null pointer for the
engine call instead of returning an empty vector. -/
theorem C6_null_reaches_engine :
    latin_dict.string_from_r [197, 145] = .ok none ∧
    latin_dict.spell [197, 145] = .ok false ∧
    latin_dict.suggest [197, 145] = .error Fault.null_string ∧
    latin_dict.stem [197, 145] = .error Fault.null_string ∧
    latin_dict.analyze [197, 145] = .error Fault.null_string ∧
    latin_dict.suggest [197, 145] ≠ .ok [] := by
  refine ⟨rfl, rfl, rfl, rfl, rfl, ?_⟩
  intro h
  cases h

/-- C10 at a one-byte input that converts to three bytes: the block of `4 * 1 + 1` bytes is
reallocated to `5 - 3 + 1 = 3` bytes, fewer than the `3 + 1` the text and its terminator
need, and the returned block holds no terminator; and at a converter that fills all five
bytes the terminator is stored outside the block. -/
theorem C10_realloc_too_small :
    strlen [97] = 2 - 1 ∧
    wide_dict.cd_from_.run [97] (4 * 1 + 1) = ⟨false, [97, 97, 97]⟩ ∧
    wide_dict.string_from_r [97] = .ok (some [some 97, some 97, some 97]) ∧
    (4 * 1 + 1 - 3 + 1 < 3 + 1) ∧
    (flood_dict.cd_from_.run [97] (4 * 1 + 1)).written.length = 4 * 1 + 1 ∧
    flood_dict.string_from_r [97] = .error Fault.out_of_bounds := by
  refine ⟨rfl, rfl, rfl, by decide, rfl, rfl⟩

/-- C7 at the two UTF-8 bytes of U+00E9 under an encoding that takes three bytes per input
byte: the converter reports no error and stores six bytes, and `string_from_r` returns a
block of four bytes, a proper beginning of the converted text without terminator. -/
theorem C7_prefix_returned :
    wide_dict.cd_from_.run (c_str [195, 169]) (4 * strlen [195, 169] + 1)
      = ⟨false, [195, 195, 195, 169, 169, 169]⟩ ∧
    wide_dict.string_from_r [195, 169]
      = .ok (some (([195, 195, 195, 169, 169, 169].take 4).map some)) ∧
    read_c_string (([195, 195, 195, 169, 169, 169].take 4).map some)
      = .error Fault.out_of_bounds := by
  refine ⟨rfl, rfl, rfl⟩

/-- When `string_from_r` returns a NUL-terminated converted line, `find` returns the
tokens the tokenizer yields for that line which the engine's `spell` rejects, in the
tokenizer's order and with repetitions, each passed through `string_to_r`; the result is as
long as the list of rejected tokens, and a rejected token on which the reverse converter
reports an error stands as `NA` at its position. -/
theorem find_rejected_tokens (tk : Tokenizer) (p : HunspellParser) (txt : Bytes) (i : Int)
    (str : Block) (line : Bytes)
    (h1 : p.mydict.string_from_r txt = .ok (some str))
    (h2 : read_c_string str = .ok line) :
    (HunspellParser.find tk p txt i).map Prod.fst
      = each_through (fun t => p.mydict.string_to_r (some t))
          (misspelled p.mydict (tk p.parser 1 line)) ∧
    ∀ (ws : List RString) (log : List Event), HunspellParser.find tk p txt i = .ok (ws, log) →
      ws.length = (misspelled p.mydict (tk p.parser 1 line)).length ∧
      ∀ (k : Nat) (t : Bytes), (misspelled p.mydict (tk p.parser 1 line))[k]? = some t →
        (p.mydict.cd_to_.run (c_str t) (4 * strlen t + 1)).failed = true →
        ws[k]? = some RString.NA := by
  have hfirst : (HunspellParser.find tk p txt i).map Prod.fst
      = each_through (fun t => p.mydict.string_to_r (some t))
          (misspelled p.mydict (tk p.parser 1 line)) := by
    simp only [HunspellParser.find, h1, h2, find_loop_words]
    cases each_through (fun t => p.mydict.string_to_r (some t))
      (misspelled p.mydict (tk p.parser 1 line)) <;> simp [Except.map]
  refine ⟨hfirst, ?_⟩
  intro ws log hfind
  rw [hfind] at hfirst
  simp only [Except.map] at hfirst
  obtain ⟨hlen, hk⟩ := each_through_ok _ _ ws hfirst.symm
  refine ⟨hlen, ?_⟩
  intro k t hkt hfail
  obtain ⟨w, h3, h4⟩ := hk k t hkt
  rw [string_to_r_of_failed p.mydict t hfail] at h3
  injection h3 with h3
  rw [h4, ← h3]

/-- The line `ok zz <233> zz` under a dictionary that accepts only `ok` and whose reverse
converter cannot represent the byte 233: the result is `zz`, `NA`, `zz`. -/
theorem find_rejected_tokens_example :
    mixed_dict.string_from_r [111, 107, 32, 122, 122, 32, 233, 32, 122, 122]
      = .ok (some ([111, 107, 32, 122, 122, 32, 233, 32, 122, 122].map some
          ++ some 0 :: List.replicate 21 none)) ∧
    (HunspellParser.find space_tokenizer parser_mixed
        [111, 107, 32, 122, 122, 32, 233, 32, 122, 122] 0).map Prod.fst
      = .ok [RString.utf8 [122, 122], RString.NA, RString.utf8 [122, 122]] ∧
    misspelled mixed_dict (space_tokenizer parser_mixed.parser 1
        [111, 107, 32, 122, 122, 32, 233, 32, 122, 122]) = [[122, 122], [233], [122, 122]] :=
  ⟨rfl,
   ((find_rejected_tokens space_tokenizer parser_mixed
      [111, 107, 32, 122, 122, 32, 233, 32, 122, 122] 0
      ([111, 107, 32, 122, 122, 32, 233, 32, 122, 122].map some
          ++ some 0 :: List.replicate 21 none)
      [111, 107, 32, 122, 122, 32, 233, 32, 122, 122] (by rfl) (by rfl)).1).trans (by rfl),
   rfl⟩

/-- C1 at the one-byte line `a` under a dictionary whose encoding takes three bytes per input
byte: the inbound converter reports no error and the constructor accepts the format, but
`string_from_r` hands back a block of three bytes without terminator, and `find` reads past
its end when it loads the tokenizer instead of returning the rejected tokens. -/
theorem C1_find_reads_past_block :
    (wide_dict.cd_from_.run (c_str [97]) (4 * strlen [97] + 1)).failed = false ∧
    HunspellParser.new wide_dict (lit "text") = .ok parser_wide ∧
    wide_dict.string_from_r [97] = .ok (some [some 97, some 97, some 97]) ∧
    HunspellParser.find space_tokenizer parser_wide [97] 0 = .error Fault.out_of_bounds := by
  refine ⟨rfl, rfl, rfl, rfl⟩

/-- C2 (as the code has it): when the inbound converter reports an error on the line and
`line_index` is an `int` below `INT_MAX`, `find` returns the empty result and its only outside
call is one warning, whose number argument is `line_index + 1` and whose string argument is
the dictionary's encoding name; the tokenizer and the engine are not called. -/
theorem C2_find_conversion_failure (tk : Tokenizer) (p : HunspellParser) (txt : Bytes)
    (line_index : Int) (hlo : INT_MIN ≤ line_index) (hhi : line_index < INT_MAX)
    (h : (p.mydict.cd_from_.run (c_str txt) (4 * strlen txt + 1)).failed = true) :
    HunspellParser.find tk p txt line_index
      = .ok ([], [Event.warning HunspellParser.warning_fmt (line_index + 1)
                    (c_str p.mydict.enc)]) := by
  have hr : INT_MIN ≤ line_index + 1 ∧ line_index + 1 ≤ INT_MAX := by
    simp only [INT_MIN, INT_MAX] at hlo hhi ⊢
    omega
  simp [HunspellParser.find, string_from_r_of_failed p.mydict txt h, int_add, hr]

/-- C2 (as the code has it) at a line of the two UTF-8 bytes of U+0151 with index 6 under an
8-bit dictionary. -/
theorem C2_find_conversion_failure_witness :
    INT_MIN ≤ 6 ∧ (6 : Int) < INT_MAX ∧
    (parser_latin.mydict.cd_from_.run (c_str [197, 145]) (4 * strlen [197, 145] + 1)).failed
      = true ∧
    HunspellParser.find space_tokenizer parser_latin [197, 145] 6
      = .ok ([], [Event.warning HunspellParser.warning_fmt 7 (lit "ISO8859-1")]) :=
  ⟨by decide, by decide, rfl,
   C2_find_conversion_failure space_tokenizer parser_latin [197, 145] 6 (by decide) (by decide)
     rfl⟩

/-- At the index `INT_MAX` the addition `i + 1` of the warning call overflows. -/
theorem find_index_overflow :
    HunspellParser.find space_tokenizer parser_latin [197, 145] INT_MAX
      = .error Fault.signed_overflow := by
  rfl

/-- C2 (as stated) fails: for the line with index 0 the warning carries the number 1, so the
single diagnostic does not name the index that was passed. -/
theorem C2_counterexample :
    HunspellParser.find space_tokenizer parser_latin [97, 197, 145] 0
      = .ok ([], [Event.warning HunspellParser.warning_fmt 1 (lit "ISO8859-1")]) ∧
    HunspellParser.find space_tokenizer parser_latin [97, 197, 145] 0
      ≠ .ok ([], [Event.warning HunspellParser.warning_fmt 0 (lit "ISO8859-1")]) := by
  refine ⟨rfl, ?_⟩
  intro h
  have h2 : HunspellParser.find space_tokenizer parser_latin [97, 197, 145] 0
      = .ok ([], [Event.warning HunspellParser.warning_fmt 1 (lit "ISO8859-1")]) := rfl
  rw [h2] at h
  simp at h

/-- For every dictionary, UTF-8 or not, `parse_text` loads the tokenizer with the line as it
was passed and returns every token the tokenizer yields for it, in order, marked as UTF-8;
no converter is called. -/
theorem parse_text_eq (tk : Tokenizer) (p : HunspellParser) (txt : Bytes) :
    HunspellParser.parse_text tk p txt
      = ((tk p.parser 1 (c_str txt)).map (fun t => RString.utf8 (c_str t)),
         [Event.put_line (c_str txt), Event.set_url_checking 1]
           ++ (tk p.parser 1 (c_str txt)).map (fun t => Event.next_token (some t))
           ++ [Event.next_token none]) := by
  simp [HunspellParser.parse_text, parse_loop_eq]

/-- C3 at the line `<197><145> a` under an 8-bit dictionary, whose constructor builds an 8-bit
tokenizer: the conversion of the line to the dictionary's encoding fails and `find` returns
the empty result with its warning, while `parse_text` loads the same tokenizer with the
unconverted UTF-8 bytes and returns two tokens instead of the empty result. -/
theorem C3_parse_text_raw_line :
    latin_dict.is_utf8 = false ∧
    HunspellParser.new latin_dict (lit "text") = .ok parser_latin ∧
    latin_dict.string_from_r [197, 145, 32, 97] = .ok none ∧
    HunspellParser.find space_tokenizer parser_latin [197, 145, 32, 97] 0
      = .ok ([], [Event.warning HunspellParser.warning_fmt 1 (lit "ISO8859-1")]) ∧
    HunspellParser.parse_text space_tokenizer parser_latin [197, 145, 32, 97]
      = ([RString.utf8 [197, 145], RString.utf8 [97]],
         [Event.put_line [197, 145, 32, 97], Event.set_url_checking 1,
          Event.next_token (some [197, 145]), Event.next_token (some [97]),
          Event.next_token none]) ∧
    (HunspellParser.parse_text space_tokenizer parser_latin [197, 145, 32, 97]).1 ≠ [] := by
  refine ⟨by decide, rfl, rfl, rfl, rfl, ?_⟩
  intro h
  have h2 : (HunspellParser.parse_text space_tokenizer parser_latin [197, 145, 32, 97]).1
      = [RString.utf8 [197, 145], RString.utf8 [97]] := rfl
  rw [h2] at h
  cases h

/-- C9 at the line `a b`: `find` and `parse_text` each call `put_line` once, with the whole
line including its space; the line is not split into the segments `a` and `b`. -/
theorem C9_whole_line_loaded :
    HunspellParser.find space_tokenizer parser_utf8 [97, 32, 98] 0
      = .ok ([RString.utf8 [97], RString.utf8 [98]],
          [Event.put_line [97, 32, 98], Event.set_url_checking 1,
           Event.next_token (some [97]), Event.spell [97] false,
           Event.next_token (some [98]), Event.spell [98] false,
           Event.next_token none]) ∧
    HunspellParser.parse_text space_tokenizer parser_utf8 [97, 32, 98]
      = ([RString.utf8 [97], RString.utf8 [98]],
          [Event.put_line [97, 32, 98], Event.set_url_checking 1,
           Event.next_token (some [97]), Event.next_token (some [98]),
           Event.next_token none]) := by
  refine ⟨rfl, rfl⟩

end Spell
